import Mathlib

/-!
Verification development for the `jk1806/Portfolio` repository.

The repository's two executable modules are modelled here:

* `python_dsa/algorithms.py` — `quick_sort` and `binary_search`, embedded over
  `List Int` (Python's arbitrary-precision integers and list values).
* `python_dsa/thermal_management_ai.py` — the simulated thermal control loop
  of class `ThermalManagementAI`.  Python floats are embedded as rationals
  (`ℚ`); every arithmetic operation the code performs on them (comparison,
  addition, multiplication by constants, `min`, `np.clip`) is exact at this
  granularity.  The `tensorflow` model branch of `predict_thermal_behavior`
  is external library code; the class starts with `self.model = None`, in
  which case prediction takes the `_fallback_prediction` path, which is what
  is embedded for the control loop.  Randomly sampled sensor values
  (`np.random.uniform`) are modelled as injected tick inputs carrying the
  sampling bounds as hypotheses.

The fan-speed setter described by the specification has no implementation
anywhere under the repository's source; it is modelled from the
specification's words (see `set_fan_speed`).
-/

namespace Portfolio

namespace Algorithms

/-- `quick_sort` from `python_dsa/algorithms.py`:
`if len(arr) <= 1: return arr`; `pivot = arr[len(arr) // 2]`;
`left = [x for x in arr if x < pivot]`; `middle = [x for x in arr if x == pivot]`;
`right = [x for x in arr if x > pivot]`;
`return quick_sort(left) + middle + quick_sort(right)`. -/
def quick_sort (l : List Int) : List Int :=
  if h : l.length ≤ 1 then l
  else
    let pivot := l.get ⟨l.length / 2, by omega⟩
    quick_sort (l.filter (fun x => x < pivot)) ++ l.filter (fun x => x = pivot) ++
      quick_sort (l.filter (fun x => pivot < x))
termination_by l.length
decreasing_by
  · have key : ∀ (L : List Int) (p : Int → Bool) (a : Int), a ∈ L → p a = false →
        (L.filter p).length < L.length := by
      intro L p a ha hpa
      induction L with
      | nil => cases ha
      | cons x xs ih =>
        simp only [List.filter_cons]
        rcases List.mem_cons.mp ha with rfl | hmem
        · rw [hpa]
          simp only [Bool.false_eq_true, if_false, List.length_cons]
          exact Nat.lt_succ_of_le (List.length_filter_le p xs)
        · by_cases hx : p x = true
          · rw [if_pos hx]
            simpa using Nat.succ_lt_succ (ih hmem)
          · rw [if_neg hx]
            exact Nat.lt_succ_of_lt (ih hmem)
    exact key l _ (l.get ⟨l.length / 2, by omega⟩) (List.get_mem l _ _)
      (by simp only [decide_eq_false_iff_not]; exact lt_irrefl _)
  · have key : ∀ (L : List Int) (p : Int → Bool) (a : Int), a ∈ L → p a = false →
        (L.filter p).length < L.length := by
      intro L p a ha hpa
      induction L with
      | nil => cases ha
      | cons x xs ih =>
        simp only [List.filter_cons]
        rcases List.mem_cons.mp ha with rfl | hmem
        · rw [hpa]
          simp only [Bool.false_eq_true, if_false, List.length_cons]
          exact Nat.lt_succ_of_le (List.length_filter_le p xs)
        · by_cases hx : p x = true
          · rw [if_pos hx]
            simpa using Nat.succ_lt_succ (ih hmem)
          · rw [if_neg hx]
            exact Nat.lt_succ_of_lt (ih hmem)
    exact key l _ (l.get ⟨l.length / 2, by omega⟩) (List.get_mem l _ _)
      (by simp only [decide_eq_false_iff_not]; exact lt_irrefl _)

/-- The loop of `binary_search`: Python `left`/`right` are integers (`right`
starts at `len(arr) - 1`, which is `-1` on an empty list), `mid = (left +
right) // 2` is floor division (which coincides with Lean's `Int` division),
and `arr[mid]` is read with a default that is never reached while `0 ≤ left`
and `right < len(arr)` (the loop invariant; Python would raise otherwise). -/
def binarySearchAux (arr : List Int) (target : Int) (left right : Int) : Int :=
  if h : left ≤ right then
    let mid := (left + right) / 2
    let v := arr.getD mid.toNat 0
    if v = target then mid
    else if v < target then binarySearchAux arr target (mid + 1) right
    else binarySearchAux arr target left (mid - 1)
  else -1
termination_by (right - left + 1).toNat
decreasing_by
  · omega
  · omega

/-- `binary_search` from `python_dsa/algorithms.py`:
`left, right = 0, len(arr) - 1` followed by the bisection loop;
returns the found index or `-1`. -/
def binary_search (arr : List Int) (target : Int) : Int :=
  binarySearchAux arr target 0 ((arr.length : Int) - 1)

end Algorithms

namespace Thermal

/-- `self.target_temperature = 75.0` (Celsius). -/
def target_temperature : ℚ := 75

/-- `self.max_temperature = 85.0` (Celsius). -/
def max_temperature : ℚ := 85

/-- `self.min_temperature = 30.0` (Celsius). -/
def min_temperature : ℚ := 30

/-- `self.cooling_efficiency = 0.8`. -/
def cooling_efficiency : ℚ := 8 / 10

/-- `np.clip(x, lo, hi)`: `lo` if `x < lo`, `hi` if `x > hi`, else `x`. -/
def clip (x lo hi : ℚ) : ℚ := max lo (min x hi)

/-- `ThermalManagementAI._fallback_prediction`:
`temp_increase = (cpu_usage * 0.3 + gpu_usage * 0.4) / 100`;
`return np.clip(current_temp + temp_increase, self.min_temperature, self.max_temperature)`. -/
def fallback_prediction (current_temp cpu_usage gpu_usage : ℚ) : ℚ :=
  clip (current_temp + (cpu_usage * (3 / 10) + gpu_usage * (4 / 10)) / 100)
    min_temperature max_temperature

/-- The dictionary returned by `optimize_cooling_system`. -/
structure CoolingOptimization where
  power_reduction : ℚ
  fan_speed_increase : ℚ
  cooling_power : ℚ
  efficiency : ℚ
  deriving DecidableEq, Repr

/-- `ThermalManagementAI.optimize_cooling_system(predicted_temp)`: above the
target temperature it returns `power_reduction = min(temp_excess * 5, 60)`,
`fan_speed_increase = min(temp_excess * 20, 50)`,
`cooling_power = min(temp_excess * 10, 100)`; at or below the target every
figure is `0`.  (The function also stores `power_reduction` on the instance;
`controlTick` threads that write.) -/
def optimize_cooling_system (predicted_temp : ℚ) : CoolingOptimization :=
  if predicted_temp > target_temperature then
    let temp_excess := predicted_temp - target_temperature
    { power_reduction := min (temp_excess * 5) 60
      fan_speed_increase := min (temp_excess * 20) 50
      cooling_power := min (temp_excess * 10) 100
      efficiency := cooling_efficiency }
  else
    { power_reduction := 0
      fan_speed_increase := 0
      cooling_power := 0
      efficiency := cooling_efficiency }

/-- The temperature-to-fan-speed map the control loop computes: the
`fan_speed_increase` field of `optimize_cooling_system`. -/
def fanSpeedFor (t : ℚ) : ℚ := (optimize_cooling_system t).fan_speed_increase

/-- The specification's piecewise-linear fan-speed map over the three
thresholds, written from the spec's words (for comparison with the code's
map): 0 below warning, 30→60 interpolated between warning and critical,
60→90 between critical and emergency, 100 at or above emergency. -/
def specFanSpeed (warning critical emergency t : ℚ) : ℚ :=
  if t < warning then 0
  else if t < critical then 30 + (t - warning) / (critical - warning) * 30
  else if t < emergency then 60 + (t - critical) / (emergency - critical) * 30
  else 100

/-- The mutable instance state of `ThermalManagementAI` that the control
loop and its entry points touch: the reading history, the stored
`power_reduction`, the `running` flag, and whether a live control thread
exists (`self.control_thread and self.control_thread.is_alive()`).
`thread_count` counts the control loops spawned so far. -/
structure ThermalState where
  temperature_history : List ℚ
  power_reduction : ℚ
  running : Bool
  thread_alive : Bool
  thread_count : Nat
  deriving DecidableEq, Repr

/-- The per-tick sensor samples drawn in `_thermal_control_loop`
(`np.random.uniform(40, 80)`, `(0, 100)`, `(0, 100)`, `(20, 30)`, `(0, 100)`). -/
structure TickInput where
  current_temp : ℚ
  cpu_usage : ℚ
  gpu_usage : ℚ
  ambient_temp : ℚ
  fan_speed : ℚ
  deriving DecidableEq, Repr

/-- The ranges `np.random.uniform` draws the tick's samples from. -/
def TickInput.valid (inp : TickInput) : Prop :=
  40 ≤ inp.current_temp ∧ inp.current_temp ≤ 80 ∧
  0 ≤ inp.cpu_usage ∧ inp.cpu_usage ≤ 100 ∧
  0 ≤ inp.gpu_usage ∧ inp.gpu_usage ≤ 100 ∧
  20 ≤ inp.ambient_temp ∧ inp.ambient_temp ≤ 30 ∧
  0 ≤ inp.fan_speed ∧ inp.fan_speed ≤ 100

instance (inp : TickInput) : Decidable inp.valid := by
  unfold TickInput.valid
  infer_instance

/-- One iteration of the `while self.running` body of
`_thermal_control_loop` (the `try` block, with `self.model = None` so
prediction takes the fallback path): predict, optimize (which stores
`self.power_reduction`), append `current_temp` to
`self.temperature_history`, and `pop(0)` when the history exceeds 100
entries.  The body never assigns `self.running`. -/
def controlTick (s : ThermalState) (inp : TickInput) : ThermalState :=
  let predicted := fallback_prediction inp.current_temp inp.cpu_usage inp.gpu_usage
  let opt := optimize_cooling_system predicted
  let hist := s.temperature_history ++ [inp.current_temp]
  let hist := if hist.length > 100 then hist.tail else hist
  { s with power_reduction := opt.power_reduction, temperature_history := hist }

/-- The state after the first `stage` instance-mutating statements of the
tick body: `stage = 0` — an exception before `optimize_cooling_system`
writes `self.power_reduction`; `stage = 1` — after that write but before
the history update; `stage ≥ 2` — the whole body ran. -/
def tickUpTo (s : ThermalState) (inp : TickInput) (stage : Nat) : ThermalState :=
  if stage = 0 then s
  else if stage = 1 then
    { s with power_reduction :=
        (optimize_cooling_system
          (fallback_prediction inp.current_temp inp.cpu_usage inp.gpu_usage)).power_reduction }
  else controlTick s inp

/-- The `try`/`except` structure of `_thermal_control_loop`'s body: a fault
raised after `stage` mutating statements (`fault = some stage`) is caught
by the `except` clause, which logs, sleeps, and falls through to the next
`while self.running` test; `fault = none` is a tick that completes. -/
def guardedTick (s : ThermalState) (inp : TickInput) (fault : Option Nat) : ThermalState :=
  match fault with
  | some stage => tickUpTo s inp stage
  | none => controlTick s inp

/-- `ThermalManagementAI.start_thermal_control`: if a live control thread
exists it warns and returns `False` without touching any state; otherwise
it sets `self.running = True`, spawns the control thread, and returns
`True`. -/
def start_thermal_control (s : ThermalState) : ThermalState × Bool :=
  if s.thread_alive then (s, false)
  else ({ s with running := true, thread_alive := true, thread_count := s.thread_count + 1 },
        true)

/-- `ThermalManagementAI.stop_thermal_control`: clears `self.running` and
joins the thread. -/
def stop_thermal_control (s : ThermalState) : ThermalState :=
  { s with running := false, thread_alive := false }

/-- The actuator (fan) state the specification describes: a target and a
current speed, both percentages. -/
structure FanState where
  target_speed : ℚ
  current_speed : ℚ
  deriving DecidableEq, Repr

/-- Modelled from the spec: no fan-speed setter exists anywhere in the
repository's source; the specification states "a fan-speed-set request
outside [0,100] is rejected and reported, leaving state unchanged", and
otherwise the request sets the fan's target.  Returns the new fan state and
whether the request was accepted. -/
def set_fan_speed (fan : FanState) (value : ℚ) : FanState × Bool :=
  if value < 0 ∨ 100 < value then (fan, false)
  else ({ fan with target_speed := value }, true)

end Thermal

end Portfolio

namespace Portfolio.Thermal

/-- The code's fan-speed map in closed form: `0` at or below the target
temperature, `min ((t - 75) * 20) 50` above it. -/
theorem fanSpeedFor_eq (t : ℚ) :
    fanSpeedFor t =
      if t ≤ target_temperature then 0 else min ((t - target_temperature) * 20) 50 := by
  by_cases ht : t ≤ target_temperature
  · rw [if_pos ht]
    simp only [fanSpeedFor, optimize_cooling_system, if_neg (not_lt.mpr ht)]
  · rw [if_neg ht]
    simp only [fanSpeedFor, optimize_cooling_system, if_pos (lt_of_not_le ht)]

/-- C1 (counterexample). The claim requires the fan speed at the emergency
threshold (85 in the spec's own scenario, the code's `max_temperature`) to
be 100; the code's map gives 50 there, because `optimize_cooling_system`
caps `fan_speed_increase` at 50 and uses no warning/critical/emergency
thresholds at all. -/
theorem C1_counterexample :
    specFanSpeed 70 80 85 85 = 100 ∧ fanSpeedFor 85 = 50 ∧ fanSpeedFor 85 ≠ 100 := by
  refine ⟨by norm_num [specFanSpeed], ?_, ?_⟩ <;>
    norm_num [fanSpeedFor, optimize_cooling_system, target_temperature, cooling_efficiency]

/-- C1 (amended). The code has no warning/critical/emergency thresholds:
its only computed fan-speed quantity, `fan_speed_increase`, is `0` for
predicted temperatures at or below the single target threshold (75 °C) and
`min ((t − 75)·20, 50)` above it — rising linearly to a cap of 50 reached
at 77.5 °C and never attaining 60, 90 or 100. -/
theorem C1_fan_map (t : ℚ) :
    fanSpeedFor t =
      (if t ≤ target_temperature then 0 else min ((t - target_temperature) * 20) 50) ∧
    fanSpeedFor t ≤ 50 := by
  refine ⟨fanSpeedFor_eq t, ?_⟩
  rw [fanSpeedFor_eq t]
  split_ifs
  · norm_num
  · exact min_le_right _ _

/-- C2. For the fixed thresholds of the code, the computed fan speed is
monotonically non-decreasing in the input temperature. -/
theorem C2_fan_speed_monotone (t1 t2 : ℚ) (h : t1 ≤ t2) :
    fanSpeedFor t1 ≤ fanSpeedFor t2 := by
  rw [fanSpeedFor_eq t1, fanSpeedFor_eq t2]
  by_cases h1 : t1 ≤ target_temperature
  · rw [if_pos h1]
    by_cases h2 : t2 ≤ target_temperature
    · rw [if_pos h2]
    · rw [if_neg h2]
      have h75 := lt_of_not_le h2
      exact le_min (by linarith) (by norm_num)
  · rw [if_neg h1, if_neg (fun hc => h1 (le_trans h hc))]
    exact min_le_min (by linarith) (le_refl 50)

/-- C2 (witness). -/
theorem C2_fan_speed_monotone_witness :
    (70 : ℚ) ≤ 80 ∧ fanSpeedFor 70 ≤ fanSpeedFor 80 :=
  ⟨by norm_num, C2_fan_speed_monotone 70 80 (by norm_num)⟩

end Portfolio.Thermal

namespace Portfolio.Thermal

/-- C3. A fan-speed-set request with a value outside [0,100] is rejected
(the returned flag is `false`, the reported rejection) and the fan state —
target and current speed — is exactly the same after the call as before.
The setter is modelled from the spec; no implementation exists in the
repository's source. -/
theorem C3_set_fan_speed_rejects_out_of_range (fan : FanState) (v : ℚ)
    (h : v < 0 ∨ 100 < v) : set_fan_speed fan v = (fan, false) := by
  unfold set_fan_speed
  rw [if_pos h]

/-- C3 (witness): the claim's two particular values, `-1` and `101`. -/
theorem C3_set_fan_speed_rejects_witness :
    set_fan_speed ⟨40, 40⟩ (-1) = (⟨40, 40⟩, false) ∧
    set_fan_speed ⟨40, 40⟩ 101 = (⟨40, 40⟩, false) :=
  ⟨C3_set_fan_speed_rejects_out_of_range ⟨40, 40⟩ (-1) (Or.inl (by norm_num)),
   C3_set_fan_speed_rejects_out_of_range ⟨40, 40⟩ 101 (Or.inr (by norm_num))⟩

/-- C4 (counterexample). A control tick whose sensor temperature is 86 —
above the code's only 85-valued parameter, `max_temperature` — leaves the
`running` flag `true`: the loop does not transition from Running to
Stopped, and the code maintains no emergency-shutdown counter to
increment. -/
theorem C4_counterexample :
    (controlTick ⟨[], 0, true, true, 1⟩ ⟨86, 50, 50, 25, 50⟩).running = true ∧
    ¬ (controlTick ⟨[], 0, true, true, 1⟩ ⟨86, 50, 50, 25, 50⟩).running = false :=
  by decide

/-- C4 (amended). A control tick never terminates the loop, whatever the
sensor temperature: the tick body does not assign the `running` flag, so
each tick leaves it exactly as it found it; the Running → Stopped
transition happens only when `stop_thermal_control` clears the flag. There
is no emergency-shutdown counter in the code. -/
theorem C4_tick_never_stops_loop (s : ThermalState) (inp : TickInput) :
    (controlTick s inp).running = s.running ∧ (stop_thermal_control s).running = false :=
  ⟨rfl, rfl⟩

/-- C5. When a live control thread exists, `start_thermal_control` refuses
the request: it returns `False` (the reported rejection), spawns nothing
(`thread_count` unchanged) and leaves the whole instance state exactly as
it was. -/
theorem C5_start_rejected_when_running (s : ThermalState) (h : s.thread_alive = true) :
    start_thermal_control s = (s, false) := by
  unfold start_thermal_control
  rw [if_pos h]

/-- C5 (witness). -/
theorem C5_start_rejected_witness :
    start_thermal_control ⟨[55], 0, true, true, 1⟩ = (⟨[55], 0, true, true, 1⟩, false) :=
  C5_start_rejected_when_running ⟨[55], 0, true, true, 1⟩ rfl

/-- C6. A fault raised anywhere inside the body of a control tick (at any
stage of its instance mutations) is caught by the loop's `except` clause,
which logs, sleeps, and falls through to the next `while self.running`
test with the flag still set: the fault never terminates the loop and
`guardedTick` is a total function — the process does not exit. -/
theorem C6_fault_in_tick_caught (s : ThermalState) (inp : TickInput) (stage : Nat)
    (h : s.running = true) : (guardedTick s inp (some stage)).running = true := by
  show (tickUpTo s inp stage).running = true
  unfold tickUpTo
  split_ifs
  · exact h
  · exact h
  · exact (rfl : (controlTick s inp).running = s.running).trans h

/-- C6 (witness). -/
theorem C6_fault_in_tick_caught_witness :
    (guardedTick ⟨[50], 0, true, true, 1⟩ ⟨60, 10, 10, 25, 30⟩ (some 0)).running = true :=
  C6_fault_in_tick_caught ⟨[50], 0, true, true, 1⟩ ⟨60, 10, 10, 25, 30⟩ 0 rfl

/-- The history written by a tick, in closed form. -/
theorem controlTick_temperature_history (s : ThermalState) (inp : TickInput) :
    (controlTick s inp).temperature_history =
      if (s.temperature_history ++ [inp.current_temp]).length > 100 then
        (s.temperature_history ++ [inp.current_temp]).tail
      else s.temperature_history ++ [inp.current_temp] := rfl

/-- Evicting the head of a nonempty list before a freshly appended reading. -/
theorem tail_concat (l : List ℚ) (r : ℚ) (hl : l ≠ []) :
    (l ++ [r]).tail = l.tail ++ [r] := by
  cases l with
  | nil => exact absurd rfl hl
  | cons a t => simp only [List.cons_append, List.tail_cons, List.tail_cons]

/-- Length after evicting the head and appending one reading. -/
theorem length_tail_concat (l : List ℚ) (r : ℚ) :
    ((l ++ [r]).tail).length = l.length := by
  cases l <;> simp

/-- Every tick's history ends with exactly the reading the tick produced. -/
theorem controlTick_getLast (s : ThermalState) (inp : TickInput) :
    (controlTick s inp).temperature_history.getLast? = some inp.current_temp := by
  rw [controlTick_temperature_history]
  split_ifs with hlen
  · rw [tail_concat _ _ (by intro hnil; rw [hnil] at hlen; simp at hlen)]
    exact List.getLast?_concat _
  · exact List.getLast?_concat _

/-- C7. The sensor-reading history buffer is bounded at 100: a control
tick appends exactly the reading it produced, and when that would exceed
100 entries the oldest reading is evicted first, so the bound `≤ 100` is
preserved by every tick. -/
theorem C7_history_bounded (s : ThermalState) (inp : TickInput)
    (h : s.temperature_history.length ≤ 100) :
    (controlTick s inp).temperature_history.length ≤ 100 ∧
    (controlTick s inp).temperature_history.getLast? = some inp.current_temp ∧
    (s.temperature_history.length < 100 →
      (controlTick s inp).temperature_history =
        s.temperature_history ++ [inp.current_temp]) ∧
    (s.temperature_history.length = 100 →
      (controlTick s inp).temperature_history =
        s.temperature_history.tail ++ [inp.current_temp]) := by
  refine ⟨?_, controlTick_getLast s inp, ?_, ?_⟩
  · rw [controlTick_temperature_history]
    split_ifs with hlen
    · rw [length_tail_concat]
      exact h
    · simp only [List.length_append] at hlen ⊢
      simp at hlen ⊢
      omega
  · intro hlt
    rw [controlTick_temperature_history]
    rw [if_neg (by simp; omega)]
  · intro heq
    rw [controlTick_temperature_history]
    rw [if_pos (by simp; omega)]
    exact tail_concat _ _ (by intro hnil; rw [hnil] at heq; simp at heq)

/-- C7 (witness). -/
theorem C7_history_bounded_witness :
    ([ (50 : ℚ), 51 ] : List ℚ).length ≤ 100 ∧
    (controlTick ⟨[50, 51], 0, true, true, 1⟩ ⟨60, 10, 10, 25, 30⟩).temperature_history.length
      ≤ 100 :=
  ⟨by norm_num,
   (C7_history_bounded ⟨[50, 51], 0, true, true, 1⟩ ⟨60, 10, 10, 25, 30⟩ (by norm_num)).1⟩

/-- C8. Under the sampling bounds the loop draws its sensor values from
(`np.random.uniform(40, 80)` for the temperature), the reading a control
tick produces and stores is a scalar within the claimed range [20, 85]. -/
theorem C8_reading_in_range (s : ThermalState) (inp : TickInput) (h : inp.valid) :
    20 ≤ inp.current_temp ∧ inp.current_temp ≤ 85 ∧
    (controlTick s inp).temperature_history.getLast? = some inp.current_temp := by
  obtain ⟨h1, h2, -⟩ := h
  exact ⟨by linarith, by linarith, controlTick_getLast s inp⟩

/-- C8 (witness). -/
theorem C8_reading_in_range_witness :
    (TickInput.mk 60 50 50 25 30).valid ∧
    20 ≤ (60 : ℚ) ∧ (60 : ℚ) ≤ 85 ∧
    (controlTick ⟨[], 0, true, true, 1⟩ ⟨60, 50, 50, 25, 30⟩).temperature_history.getLast?
      = some 60 :=
  ⟨by decide,
   C8_reading_in_range ⟨[], 0, true, true, 1⟩ ⟨60, 50, 50, 25, 30⟩ (by decide)⟩

end Portfolio.Thermal

namespace Portfolio.Algorithms

/-- An element failing a filter's predicate makes the filter strictly
shorter than the list it came from. -/
theorem length_filter_lt_of_mem (L : List Int) (p : Int → Bool) (a : Int)
    (ha : a ∈ L) (hpa : p a = false) : (L.filter p).length < L.length := by
  induction L with
  | nil => cases ha
  | cons x xs ih =>
    simp only [List.filter_cons]
    rcases List.mem_cons.mp ha with rfl | hmem
    · rw [hpa]
      simp only [Bool.false_eq_true, if_false, List.length_cons]
      exact Nat.lt_succ_of_le (List.length_filter_le p xs)
    · by_cases hx : p x = true
      · rw [if_pos hx]
        simpa using Nat.succ_lt_succ (ih hmem)
      · rw [if_neg hx]
        exact Nat.lt_succ_of_lt (ih hmem)

/-- Counting inside a filter whose predicate rejects the counted value. -/
theorem count_filter_eq_zero (l : List Int) (p : Int → Bool) (a : Int)
    (h : p a = false) : List.count a (l.filter p) = 0 := by
  rw [List.count_eq_zero]
  intro hmem
  have hpa := (List.mem_filter.mp hmem).2
  rw [h] at hpa
  cases hpa

/-- The three pivot-comparison filters of `quick_sort` partition the list:
their concatenation is a permutation of it. -/
theorem partition_perm (l : List Int) (p : Int) :
    (l.filter (fun x => x < p) ++ l.filter (fun x => x = p) ++
      l.filter (fun x => p < x)).Perm l := by
  rw [List.perm_iff_count]
  intro a
  rw [List.count_append, List.count_append]
  rcases lt_trichotomy a p with h | h | h
  · have h1 : List.count a (l.filter (fun x => x < p)) = List.count a l :=
      List.count_filter (by simpa using h)
    have h2 : List.count a (l.filter (fun x => x = p)) = 0 :=
      count_filter_eq_zero _ _ _ (by simp only [decide_eq_false_iff_not]; exact ne_of_lt h)
    have h3 : List.count a (l.filter (fun x => p < x)) = 0 :=
      count_filter_eq_zero _ _ _ (by simp only [decide_eq_false_iff_not]; omega)
    rw [h1, h2, h3]
    omega
  · subst h
    have h1 : List.count a (l.filter (fun x => x < a)) = 0 :=
      count_filter_eq_zero _ _ _ (by simp only [decide_eq_false_iff_not]; exact lt_irrefl a)
    have h2 : List.count a (l.filter (fun x => x = a)) = List.count a l :=
      List.count_filter (by simp)
    have h3 : List.count a (l.filter (fun x => a < x)) = 0 :=
      count_filter_eq_zero _ _ _ (by simp only [decide_eq_false_iff_not]; exact lt_irrefl a)
    rw [h1, h2, h3]
    omega
  · have h1 : List.count a (l.filter (fun x => x < p)) = 0 :=
      count_filter_eq_zero _ _ _ (by simp only [decide_eq_false_iff_not]; omega)
    have h2 : List.count a (l.filter (fun x => x = p)) = 0 :=
      count_filter_eq_zero _ _ _ (by simp only [decide_eq_false_iff_not]; exact ne_of_gt h)
    have h3 : List.count a (l.filter (fun x => p < x)) = List.count a l :=
      List.count_filter (by simpa using h)
    rw [h1, h2, h3]
    omega

/-- One unfolding of `quick_sort` on a list longer than one element, with
the pivot abstracted. -/
theorem quick_sort_eq (l : List Int) (h : ¬ l.length ≤ 1) (p : Int)
    (hp : p = l.get ⟨l.length / 2, by omega⟩) :
    quick_sort l = quick_sort (l.filter (fun x => x < p)) ++ l.filter (fun x => x = p) ++
      quick_sort (l.filter (fun x => p < x)) := by
  subst hp
  conv_lhs => rw [quick_sort]
  rw [dif_neg h]

/-- `quick_sort` on a list of at most one element returns it unchanged. -/
theorem quick_sort_eq_small (l : List Int) (h : l.length ≤ 1) : quick_sort l = l := by
  conv_lhs => rw [quick_sort]
  rw [dif_pos h]

/-- `quick_sort` returns a permutation of its input. -/
theorem quick_sort_perm (l : List Int) : (quick_sort l).Perm l := by
  by_cases h : l.length ≤ 1
  · rw [quick_sort_eq_small l h]
  · rw [quick_sort_eq l h (l.get ⟨l.length / 2, by omega⟩) rfl]
    refine List.Perm.trans ?_ (partition_perm l (l.get ⟨l.length / 2, by omega⟩))
    exact List.Perm.append
      (List.Perm.append (quick_sort_perm _) (List.Perm.refl _)) (quick_sort_perm _)
termination_by l.length
decreasing_by
  · exact length_filter_lt_of_mem l _ (l.get ⟨l.length / 2, by omega⟩) (List.get_mem l _ _)
      (by simp only [decide_eq_false_iff_not]; exact lt_irrefl _)
  · exact length_filter_lt_of_mem l _ (l.get ⟨l.length / 2, by omega⟩) (List.get_mem l _ _)
      (by simp only [decide_eq_false_iff_not]; exact lt_irrefl _)

end Portfolio.Algorithms

namespace Portfolio.Algorithms

/-- `quick_sort` returns a list sorted in non-decreasing order. -/
theorem quick_sort_sorted (l : List Int) : List.Sorted (· ≤ ·) (quick_sort l) := by
  by_cases h : l.length ≤ 1
  · rw [quick_sort_eq_small l h]
    rcases l with _ | ⟨a, _ | ⟨b, t⟩⟩
    · exact List.sorted_nil
    · exact List.sorted_singleton a
    · simp at h
  · rw [quick_sort_eq l h (l.get ⟨l.length / 2, by omega⟩) rfl]
    apply List.pairwise_append.mpr
    refine ⟨?_, quick_sort_sorted _, ?_⟩
    · apply List.pairwise_append.mpr
      refine ⟨quick_sort_sorted _, ?_, ?_⟩
      · apply List.pairwise_of_forall_mem_list
        intro x hx y hy
        have hx' := (List.mem_filter.mp hx).2
        have hy' := (List.mem_filter.mp hy).2
        simp only [decide_eq_true_eq] at hx' hy'
        rw [hx', hy']
      · intro x hx y hy
        have hx' := (List.mem_filter.mp ((quick_sort_perm _).mem_iff.mp hx)).2
        have hy' := (List.mem_filter.mp hy).2
        simp only [decide_eq_true_eq] at hx' hy'
        rw [hy']
        exact le_of_lt hx'
    · intro x hx y hy
      have hy' := (List.mem_filter.mp ((quick_sort_perm _).mem_iff.mp hy)).2
      simp only [decide_eq_true_eq] at hy'
      rcases List.mem_append.mp hx with hxa | hxm
      · have hx' := (List.mem_filter.mp ((quick_sort_perm _).mem_iff.mp hxa)).2
        simp only [decide_eq_true_eq] at hx'
        exact le_of_lt (lt_trans hx' hy')
      · have hx' := (List.mem_filter.mp hxm).2
        simp only [decide_eq_true_eq] at hx'
        rw [hx']
        exact le_of_lt hy'
termination_by l.length
decreasing_by
  · exact length_filter_lt_of_mem l _ (l.get ⟨l.length / 2, by omega⟩) (List.get_mem l _ _)
      (by simp only [decide_eq_false_iff_not]; exact lt_irrefl _)
  · exact length_filter_lt_of_mem l _ (l.get ⟨l.length / 2, by omega⟩) (List.get_mem l _ _)
      (by simp only [decide_eq_false_iff_not]; exact lt_irrefl _)

/-- C9. `quick_sort` returns a list that is sorted in non-decreasing order
and is a permutation (the same multiset) of its input.  The embedding is
pure, mirroring the Python function, which only reads `arr` through list
comprehensions and concatenation and never mutates it. -/
theorem C9_quick_sort_correct (l : List Int) :
    List.Sorted (· ≤ ·) (quick_sort l) ∧ (quick_sort l).Perm l :=
  ⟨quick_sort_sorted l, quick_sort_perm l⟩

end Portfolio.Algorithms

namespace Portfolio.Algorithms

/-- A value missed by every index is not in the list. -/
theorem not_mem_of_getD (arr : List Int) (target : Int)
    (h : ∀ k : Nat, k < arr.length → arr.getD k 0 ≠ target) : target ∉ arr := by
  intro hmem
  obtain ⟨⟨k, hk⟩, hget⟩ := List.mem_iff_get.mp hmem
  apply h k hk
  rw [List.getD_eq_getElem _ _ hk, ← List.get_eq_getElem arr ⟨k, hk⟩]
  exact hget

/-- Indexed reads of a non-decreasing list are monotone. -/
theorem sorted_getD_mono (arr : List Int) (hs : List.Sorted (· ≤ ·) arr)
    (i j : Nat) (hij : i ≤ j) (hj : j < arr.length) :
    arr.getD i 0 ≤ arr.getD j 0 := by
  have hi : i < arr.length := lt_of_le_of_lt hij hj
  rw [List.getD_eq_getElem _ _ hi, List.getD_eq_getElem _ _ hj,
    ← List.get_eq_getElem arr ⟨i, hi⟩, ← List.get_eq_getElem arr ⟨j, hj⟩]
  rcases eq_or_lt_of_le hij with heq | hlt
  · subst heq
    exact le_refl _
  · exact @List.Sorted.rel_get_of_lt Int (· ≤ ·) arr hs ⟨i, hi⟩ ⟨j, hj⟩ hlt

/-- The loop exits with `-1` when the window is empty. -/
theorem binarySearchAux_none (arr : List Int) (target left right : Int)
    (h : ¬ left ≤ right) : binarySearchAux arr target left right = -1 := by
  conv_lhs => rw [binarySearchAux]
  rw [dif_neg h]

/-- The loop returns `mid` when the probe hits the target. -/
theorem binarySearchAux_found (arr : List Int) (target left right : Int) (h : left ≤ right)
    (hv : arr.getD ((left + right) / 2).toNat 0 = target) :
    binarySearchAux arr target left right = (left + right) / 2 := by
  conv_lhs => rw [binarySearchAux]
  rw [dif_pos h, if_pos hv]

/-- The loop moves `left` past `mid` when the probe is below the target. -/
theorem binarySearchAux_go_right (arr : List Int) (target left right : Int) (h : left ≤ right)
    (hv : ¬ arr.getD ((left + right) / 2).toNat 0 = target)
    (hlt : arr.getD ((left + right) / 2).toNat 0 < target) :
    binarySearchAux arr target left right =
      binarySearchAux arr target ((left + right) / 2 + 1) right := by
  conv_lhs => rw [binarySearchAux]
  rw [dif_pos h, if_neg hv, if_pos hlt]

/-- The loop moves `right` below `mid` when the probe is above the target. -/
theorem binarySearchAux_go_left (arr : List Int) (target left right : Int) (h : left ≤ right)
    (hv : ¬ arr.getD ((left + right) / 2).toNat 0 = target)
    (hnlt : ¬ arr.getD ((left + right) / 2).toNat 0 < target) :
    binarySearchAux arr target left right =
      binarySearchAux arr target left ((left + right) / 2 - 1) := by
  conv_lhs => rw [binarySearchAux]
  rw [dif_pos h, if_neg hv, if_neg hnlt]

/-- The bisection loop's invariant proof: on a sorted list, with every index
outside the window already ruled out, the loop either returns `-1` and the
target is absent, or it returns an in-bounds index holding the target. -/
theorem binarySearchAux_spec (arr : List Int) (target : Int)
    (hs : List.Sorted (· ≤ ·) arr) :
    ∀ (n : Nat) (left right : Int), (right - left + 1).toNat ≤ n →
      0 ≤ left → right < (arr.length : Int) →
      (∀ k : Nat, k < arr.length → ((k : Int) < left ∨ right < (k : Int)) →
        arr.getD k 0 ≠ target) →
      (binarySearchAux arr target left right = -1 ∧ target ∉ arr) ∨
      (∃ i : Nat, binarySearchAux arr target left right = (i : Int) ∧ i < arr.length ∧
        arr.getD i 0 = target) := by
  intro n
  induction n with
  | zero =>
    intro left right hm hl hr hout
    have hnle : ¬ left ≤ right := by omega
    left
    refine ⟨binarySearchAux_none arr target left right hnle, ?_⟩
    apply not_mem_of_getD
    intro k hk
    apply hout k hk
    omega
  | succ n ih =>
    intro left right hm hl hr hout
    by_cases hcond : left ≤ right
    · have hmidl : left ≤ (left + right) / 2 := by omega
      have hmidr : (left + right) / 2 ≤ right := by omega
      have hmidnat : ((left + right) / 2).toNat < arr.length := by omega
      by_cases hv : arr.getD ((left + right) / 2).toNat 0 = target
      · right
        refine ⟨((left + right) / 2).toNat, ?_, hmidnat, hv⟩
        rw [binarySearchAux_found arr target left right hcond hv]
        omega
      · by_cases hlt : arr.getD ((left + right) / 2).toNat 0 < target
        · rw [binarySearchAux_go_right arr target left right hcond hv hlt]
          apply ih ((left + right) / 2 + 1) right (by omega) (by omega) hr
          intro k hk hkr
          rcases hkr with hk1 | hk2
          · by_cases hkl : (k : Int) < left
            · exact hout k hk (Or.inl hkl)
            · have hmono : arr.getD k 0 ≤ arr.getD ((left + right) / 2).toNat 0 :=
                sorted_getD_mono arr hs k ((left + right) / 2).toNat (by omega) hmidnat
              intro heq
              rw [heq] at hmono
              exact absurd (lt_of_le_of_lt hmono hlt) (lt_irrefl target)
          · exact hout k hk (Or.inr hk2)
        · rw [binarySearchAux_go_left arr target left right hcond hv hlt]
          apply ih left ((left + right) / 2 - 1) (by omega) hl (by omega)
          intro k hk hkr
          rcases hkr with hk1 | hk2
          · exact hout k hk (Or.inl hk1)
          · by_cases hkr2 : right < (k : Int)
            · exact hout k hk (Or.inr hkr2)
            · have hmono : arr.getD ((left + right) / 2).toNat 0 ≤ arr.getD k 0 :=
                sorted_getD_mono arr hs ((left + right) / 2).toNat k (by omega) hk
              have htgt : target < arr.getD ((left + right) / 2).toNat 0 :=
                lt_of_le_of_ne (not_lt.mp hlt) (fun hc => hv hc.symm)
              intro heq
              rw [heq] at hmono
              exact absurd (lt_of_lt_of_le htgt hmono) (lt_irrefl target)
    · left
      refine ⟨binarySearchAux_none arr target left right hcond, ?_⟩
      apply not_mem_of_getD
      intro k hk
      apply hout k hk
      omega

/-- C10. On a list sorted in non-decreasing order, `binary_search` returns
an in-bounds index holding the target whenever the target occurs, and `-1`
whenever it does not. -/
theorem C10_binary_search_correct (arr : List Int) (target : Int)
    (hs : List.Sorted (· ≤ ·) arr) :
    (target ∈ arr → ∃ i : Nat, binary_search arr target = (i : Int) ∧ i < arr.length ∧
      arr.getD i 0 = target) ∧
    (target ∉ arr → binary_search arr target = -1) := by
  have hout : ∀ k : Nat, k < arr.length →
      ((k : Int) < 0 ∨ (arr.length : Int) - 1 < (k : Int)) → arr.getD k 0 ≠ target := by
    intro k hk hkr
    exfalso
    omega
  have hspec := binarySearchAux_spec arr target hs arr.length 0 ((arr.length : Int) - 1)
    (by omega) (le_refl 0) (by omega) hout
  unfold binary_search
  rcases hspec with ⟨heq, hnot⟩ | ⟨i, heq, hlt, hget⟩
  · exact ⟨fun hmem => absurd hmem hnot, fun _ => heq⟩
  · refine ⟨fun _ => ⟨i, heq, hlt, hget⟩, fun hnmem => ?_⟩
    exfalso
    apply hnmem
    rw [List.getD_eq_getElem _ _ hlt] at hget
    exact hget ▸ List.getElem_mem hlt

/-- C10 (witness): the repository's own test query, `25` in the sorted
array `[11, 12, 22, 25, 34, 64, 90]`, found at index 3. -/
theorem C10_binary_search_correct_witness :
    List.Sorted (· ≤ ·) ([11, 12, 22, 25, 34, 64, 90] : List Int) ∧
    (∃ i : Nat, binary_search [11, 12, 22, 25, 34, 64, 90] 25 = (i : Int) ∧
      i < ([11, 12, 22, 25, 34, 64, 90] : List Int).length ∧
      ([11, 12, 22, 25, 34, 64, 90] : List Int).getD i 0 = 25) :=
  ⟨by decide,
   (C10_binary_search_correct [11, 12, 22, 25, 34, 64, 90] 25 (by decide)).1 (by decide)⟩

end Portfolio.Algorithms
